import Mathlib

/-!
Verification development for the session-orchestration core of the
audio-stream-transcribe package.  The definitions below are shallow
embeddings of:

* `src/server/WebSocketManager` (connection registry: `addConnection`,
  `removeConnection`, `getConnection`, `getConnectionsByUser`),
* `src/server/AudioStreamServer` (per-session audio pipeline:
  `handleAudioData`, `processAudioBuffer`, `processBufferedAudio`,
  modelled as a labelled transition system whose atomic steps are the
  synchronous segments between `await` points of the JavaScript code),
* `src/server/LLMProcessor` (batching engine: `getOrCreateBatch`,
  `checkBatchSize`, `processBatch`, `processAudioChunk`,
  `processTranscription`).

JavaScript `Map` and `Set` values are modelled as association lists /
duplicate-free lists kept in insertion order; JavaScript truthiness of
optional strings and numeric options is modelled explicitly.
-/

namespace AudioStream

/-- Lookup in an association list, mirroring JavaScript `Map.get`. -/
def lookupA {β : Type} : List (String × β) → String → Option β
  | [], _ => none
  | (k, v) :: rest, key => if k = key then some v else lookupA rest key

/-- Update/insert in an association list, mirroring JavaScript `Map.set`
(replaces the entry in place if the key exists, appends otherwise). -/
def setA {β : Type} : List (String × β) → String → β → List (String × β)
  | [], key, v => [(key, v)]
  | (k, w) :: rest, key, v =>
    if k = key then (k, v) :: rest else (k, w) :: setA rest key v

/-- Deletion from an association list, mirroring JavaScript `Map.delete`
(on the duplicate-free lists produced by `setA` this removes exactly the
entry for the key). -/
def eraseA {β : Type} : List (String × β) → String → List (String × β)
  | [], _ => []
  | (k, w) :: rest, key =>
    if k = key then eraseA rest key else (k, w) :: eraseA rest key

/-- Membership-avoiding append, mirroring JavaScript `Set.add`. -/
def addS (s : List String) (x : String) : List String :=
  if x ∈ s then s else s ++ [x]

/-- Element removal, mirroring JavaScript `Set.delete`. -/
def eraseS : List String → String → List String
  | [], _ => []
  | y :: rest, x => if y = x then eraseS rest x else y :: eraseS rest x

/-- JavaScript truthiness of an optional string (`undefined` and the
empty string are falsy). -/
def strTruthy : Option String → Bool
  | none => false
  | some s => s ≠ ""

end AudioStream

namespace WSManager

open AudioStream

/-- A registered connection (`WebSocketConnection` in
`src/server/WebSocketManager.ts`); the transport handle, metadata and
`lastActivity` are irrelevant to the registry claims and omitted. -/
structure WSConnection where
  sessionId : String
  userId : Option String
  isAlive : Bool
  deriving Repr, DecidableEq

/-- Registry state: the primary `connections` Map (sessionId → connection)
and the secondary `userConnections` Map (userId → Set of sessionIds). -/
structure Registry where
  connections : List (String × WSConnection)
  userConnections : List (String × List String)
  deriving Repr, DecidableEq

def emptyRegistry : Registry := { connections := [], userConnections := [] }

/-- The rejection guard of `addConnection` (WebSocketManager.js:18-24):
`if (userId && this.options.maxConnectionsPerUser)` followed by
`userSessions && userSessions.size >= maxConnectionsPerUser`.
`maxConnectionsPerUser = 0` models an unset or zero option (both are
falsy in the first guard). -/
def capExceeded (maxConnectionsPerUser : Nat) (st : Registry)
    (userId : Option String) : Bool :=
  if strTruthy userId ∧ maxConnectionsPerUser ≠ 0 then
    match lookupA st.userConnections (userId.getD "") with
    | some userSessions => userSessions.length ≥ maxConnectionsPerUser
    | none => false
  else false

/-- `WebSocketManager.addConnection` (WebSocketManager.js:16-50).
Returns the new state and the boolean result. -/
def addConnection (maxConnectionsPerUser : Nat) (st : Registry)
    (sessionId : String) (userId : Option String) : Registry × Bool :=
  if capExceeded maxConnectionsPerUser st userId then (st, false)
  else
    let conn : WSConnection :=
      { sessionId := sessionId, userId := userId, isAlive := true }
    let conns := setA st.connections sessionId conn
    -- `if (userId) { ...userConnections.get(userId).add(sessionId) }`
    let ucs :=
      if strTruthy userId then
        let u := userId.getD ""
        setA st.userConnections u (addS ((lookupA st.userConnections u).getD []) sessionId)
      else st.userConnections
    ({ connections := conns, userConnections := ucs }, true)

/-- `WebSocketManager.removeConnection` (WebSocketManager.js:51-66). -/
def removeConnection (st : Registry) (sessionId : String) : Registry :=
  match lookupA st.connections sessionId with
  | none => st
  | some conn =>
    let conns := eraseA st.connections sessionId
    -- `if (connection.userId)` (truthy check)
    let ucs :=
      if strTruthy conn.userId then
        let u := conn.userId.getD ""
        match lookupA st.userConnections u with
        | some userSessions =>
          let us' := eraseS userSessions sessionId
          if us'.length = 0 then eraseA st.userConnections u
          else setA st.userConnections u us'
        | none => st.userConnections
      else st.userConnections
    { connections := conns, userConnections := ucs }

/-- `WebSocketManager.getConnection`. -/
def getConnection (st : Registry) (sessionId : String) : Option WSConnection :=
  lookupA st.connections sessionId

/-- `WebSocketManager.getConnectionsByUser` (map over the sessionId set,
dropping sessionIds with no primary entry). -/
def getConnectionsByUser (st : Registry) (userId : String) : List WSConnection :=
  match lookupA st.userConnections userId with
  | none => []
  | some sessionIds => sessionIds.filterMap (fun sid => lookupA st.connections sid)

/-- Registry states reachable by `addConnection` / `removeConnection`
sequences, where every admission uses a sessionId not currently
registered (the spec's caller-unique sessionIds). -/
inductive Reachable (maxConnectionsPerUser : Nat) : Registry → Prop
  | init : Reachable maxConnectionsPerUser emptyRegistry
  | add {st : Registry} {sessionId : String} {userId : Option String} :
      Reachable maxConnectionsPerUser st →
      lookupA st.connections sessionId = none →
      Reachable maxConnectionsPerUser (addConnection maxConnectionsPerUser st sessionId userId).1
  | remove {st : Registry} {sessionId : String} :
      Reachable maxConnectionsPerUser st →
      Reachable maxConnectionsPerUser (removeConnection st sessionId)

/-- Number of sessions currently registered for a user in the secondary
index. -/
def userCount (st : Registry) (u : String) : Nat :=
  ((lookupA st.userConnections u).getD []).length

/-- Consistency invariant linking the two indices (used to settle the
index-consistency claim); established for all reachable states. -/
structure Inv (st : Registry) : Prop where
  connSid : ∀ sid c, lookupA st.connections sid = some c → c.sessionId = sid
  secTruthy : ∀ u ss, lookupA st.userConnections u = some ss → u ≠ ""
  secNonempty : ∀ u ss, lookupA st.userConnections u = some ss → ss ≠ []
  secSub : ∀ u ss sid, lookupA st.userConnections u = some ss → sid ∈ ss →
    ∃ c, lookupA st.connections sid = some c ∧ c.userId = some u
  primSec : ∀ sid c u, lookupA st.connections sid = some c →
    c.userId = some u → u ≠ "" →
    ∃ ss, lookupA st.userConnections u = some ss ∧ sid ∈ ss

end WSManager

namespace Server

/-!
Per-session pipeline of `src/server/AudioStreamServer.ts`, for one
recording (non-paused) session, as a labelled transition system.  Each
label is one synchronous JavaScript execution segment (event-handler run
or microtask chain after a provider promise settles); these segments are
atomic because Node runs them to completion before the next `message`
event.  Audio chunk payloads are `Nat` identifiers; a provider call's
payload is the list of chunk identifiers it covers.
-/

/-- Progress of the one `stop-recording` drain
(`handleControlMessage` case `stop-recording` + `processBufferedAudio`,
AudioStreamServer.ts:133-141 and 245-254). -/
inductive DrainPhase
  | idle
  /-- `processBufferedAudio` is awaiting the ongoing `processingQueue`
  promise. -/
  | waiting
  /-- the drain's own `processAudioBuffer` has an outstanding
  `processAudio` call with this payload. -/
  | calling (payload : List Nat)
  /-- `recording-stopped` has been acknowledged. -/
  | done
  deriving Repr, DecidableEq

/-- Observable effects of the result-handling section of
`processAudioBuffer` (AudioStreamServer.ts:214-243). -/
inductive SrvAction
  | sendTranscription (transcript : String)
  | emitTranscription (transcript : String)
  | forwardToLLM (transcript : String)
  | emitError
  deriving Repr, DecidableEq

/-- State of one session's pipeline inside `AudioStreamServer`. -/
structure SrvState where
  /-- `sessionBuffers.get(sessionId)`: chunk identifiers in arrival order. -/
  buffer : List Nat
  /-- payload of the `processAudio` call whose promise sits in
  `processingQueue` (the `handleAudioData` dispatch path); `none` iff
  `processingQueue.has(sessionId)` is false. -/
  queueCall : Option (List Nat)
  drain : DrainPhase
  /-- log of payloads handed to `transcriptionProvider.processAudio`, in
  dispatch order. -/
  calls : List (List Nat)
  /-- log of result-handling effects. -/
  actions : List SrvAction
  /-- set when `recording-stopped` is sent: the buffer contents and the
  number of outstanding `processAudio` calls at that instant. -/
  ack : Option (List Nat × Nat)
  /-- buffer contents at the instant the most recent session-scoped
  `error` event was emitted from the `catch` of `processAudioBuffer`. -/
  lastErrorBuffer : Option (List Nat)
  deriving Repr, DecidableEq

def initSrv : SrvState :=
  { buffer := [], queueCall := none, drain := .idle, calls := [],
    actions := [], ack := none, lastErrorBuffer := none }

/-- Number of outstanding `transcriptionProvider.processAudio` calls for
the session. -/
def outstanding (s : SrvState) : Nat :=
  (match s.queueCall with | some _ => 1 | none => 0) +
  (match s.drain with | .calling _ => 1 | _ => 0)

/-- Result handling in `processAudioBuffer` (AudioStreamServer.ts:214-243):
`none` models a rejected provider promise (the `catch` branch); `some t`
a result whose `transcript` field is `t`.  `if (result.transcript)` is
the JavaScript truthiness test, so the empty string takes no branch. -/
def handleResult (llmEnabled : Bool) : Option String → List SrvAction
  | none => [.emitError]
  | some t =>
    if t = "" then []
    else .sendTranscription t :: .emitTranscription t ::
      (if llmEnabled then [.forwardToLLM t] else [])

/-- Transition labels: an inbound binary frame, completion of the
queue-registered call, completion of the drain's call, and the
`stop-recording` control message. -/
inductive SrvLabel
  | arrive (chunk : Nat)
  | completeQueue (res : Option String)
  | completeDrain (res : Option String)
  | stop
  deriving Repr, DecidableEq

/-- One atomic execution segment.  Returns `none` when the label is not
enabled in the given state. -/
def step (llmEnabled : Bool) (s : SrvState) : SrvLabel → Option SrvState
  | .arrive c =>
    -- handleAudioData (AudioStreamServer.ts:164-201): push to the session
    -- buffer; if `!processingQueue.has(sessionId)`, `processAudioBuffer`
    -- runs synchronously up to the provider call: it splices the whole
    -- buffer and starts `processAudio` on the concatenation, and the
    -- promise is registered in `processingQueue`.
    let buf := s.buffer ++ [c]
    match s.queueCall with
    | some _ => some { s with buffer := buf }
    | none =>
      some { s with buffer := [], queueCall := some buf,
                    calls := s.calls ++ [buf] }
  | .completeQueue res =>
    -- the provider promise of the queue-registered call settles: the rest
    -- of processAudioBuffer runs (send/emit or catch), its promise
    -- resolves, handleAudioData's finally deletes the processingQueue
    -- entry, and a drain awaiting that promise resumes
    -- (`processBufferedAudio` then calls `processAudioBuffer` directly,
    -- without any processingQueue registration).
    match s.queueCall with
    | none => none
    | some _ =>
      let acts := s.actions ++ handleResult llmEnabled res
      let errB := if res.isNone then some s.buffer else s.lastErrorBuffer
      match s.drain with
      | .waiting =>
        if s.buffer.isEmpty then
          -- processAudioBuffer returns at the empty-buffer guard; the
          -- stop handler sends `recording-stopped` in the same chain.
          some { s with queueCall := none, actions := acts,
                        lastErrorBuffer := errB, drain := .done,
                        ack := some ([], 0) }
        else
          some { s with buffer := [], queueCall := none, actions := acts,
                        lastErrorBuffer := errB,
                        drain := .calling s.buffer,
                        calls := s.calls ++ [s.buffer] }
      | _ =>
        some { s with queueCall := none, actions := acts,
                      lastErrorBuffer := errB }
  | .completeDrain res =>
    -- the drain's provider promise settles: result handling runs,
    -- processBufferedAudio returns, and the stop handler sends the
    -- `recording-stopped` acknowledgement in the same microtask chain.
    match s.drain with
    | .calling _ =>
      let acts := s.actions ++ handleResult llmEnabled res
      let errB := if res.isNone then some s.buffer else s.lastErrorBuffer
      some { s with drain := .done, actions := acts,
                    lastErrorBuffer := errB,
                    ack := some (s.buffer,
                      match s.queueCall with | some _ => 1 | none => 0) }
    | _ => none
  | .stop =>
    -- handleControlMessage case `stop-recording`: processBufferedAudio
    -- awaits any processingQueue promise, else calls processAudioBuffer
    -- directly; with an empty buffer that returns at once and the
    -- acknowledgement is sent immediately.
    match s.drain with
    | .idle =>
      match s.queueCall with
      | some _ => some { s with drain := .waiting }
      | none =>
        if s.buffer.isEmpty then
          some { s with drain := .done, ack := some ([], 0) }
        else
          some { s with buffer := [], drain := .calling s.buffer,
                        calls := s.calls ++ [s.buffer] }
    | _ => none

/-- Run a list of labels from a state; fails if any label is disabled. -/
def runSteps (llmEnabled : Bool) : SrvState → List SrvLabel → Option SrvState
  | s, [] => some s
  | s, l :: rest =>
    match step llmEnabled s l with
    | none => none
    | some s' => runSteps llmEnabled s' rest

/-- The chunks carried by the `arrive` labels of a trace, in order. -/
def arrivals (L : List SrvLabel) : List Nat :=
  L.filterMap (fun l => match l with | .arrive c => some c | _ => none)

/-- Labels that model completions of provider promises only. -/
def isCompletion : SrvLabel → Prop
  | .completeQueue _ => True
  | .completeDrain _ => True
  | _ => False

instance (l : SrvLabel) : Decidable (isCompletion l) := by
  cases l <;> simp [isCompletion] <;> infer_instance

/-- Labels other than a completion of the queue-registered call. -/
def notCompleteQueue : SrvLabel → Prop
  | .completeQueue _ => False
  | _ => True

instance (l : SrvLabel) : Decidable (notCompleteQueue l) := by
  cases l <;> simp [notCompleteQueue] <;> infer_instance

/-- Auxiliary invariant of the quiescent drain: once the drain's own
call is outstanding the buffer is empty and no queue-registered call
exists, and once the drain is done the acknowledgement was sent with an
empty buffer and no outstanding call. -/
def DrainInv (s : SrvState) : Prop :=
  (∀ p, s.drain = .calling p → s.buffer = [] ∧ s.queueCall = none) ∧
  (s.drain = .done → s.ack = some ([], 0))

end Server

namespace LLM

open AudioStream

/-- `TranscriptionResult` (fields relevant to the batching engine). -/
structure TranscriptionResult where
  transcript : String
  speaker : Option String
  confidence : Option Nat
  deriving Repr, DecidableEq

/-- `LLMProcessorOptions` as passed to the constructor (all optional). -/
structure LLMOptions where
  batchTimeout : Option Nat
  maxBatchSize : Option Nat
  includeAudio : Option Bool
  includeTranscript : Option Bool
  deriving Repr, DecidableEq

/-- Options after the constructor's defaulting (`??` is nullish
coalescing, LLMProcessor.ts:52-55). -/
structure ResolvedOptions where
  batchTimeout : Nat
  maxBatchSize : Nat
  includeAudio : Bool
  includeTranscript : Bool
  deriving Repr, DecidableEq

def resolveOptions (o : LLMOptions) : ResolvedOptions :=
  { batchTimeout := o.batchTimeout.getD 5000,
    maxBatchSize := o.maxBatchSize.getD 10,
    includeAudio := o.includeAudio.getD false,
    includeTranscript := o.includeTranscript.getD true }

/-- One entry of `batchMap`: accumulated audio buffers (as byte lists),
accumulated transcription results, and the `setTimeout` handle armed at
creation. -/
structure Batch where
  audio : List (List Nat)
  transcripts : List TranscriptionResult
  timer : Nat
  deriving Repr, DecidableEq

/-- `LLMRequest` as constructed by `processBatch`
(LLMProcessor.ts:126-143); absent optional fields are `none`. -/
structure LLMRequest where
  sessionId : String
  audio : Option (List Nat)
  transcript : Option String
  transcriptionResults : Option (List TranscriptionResult)
  deriving Repr, DecidableEq

/-- `LLMProcessor` state: the batch map plus observation logs for timer
arming (`setTimeout` at batch creation), timer clearing (`clearTimeout`
in `processBatch`) and emitted `llm-request` events.  `nextTimer` is a
fresh-handle counter. -/
structure LLMState where
  batchMap : List (String × Batch)
  nextTimer : Nat
  armedTimers : List Nat
  clearedTimers : List Nat
  requests : List LLMRequest
  deriving Repr, DecidableEq

def initLLM : LLMState :=
  { batchMap := [], nextTimer := 0, armedTimers := [],
    clearedTimers := [], requests := [] }

/-- `getOrCreateBatch` (LLMProcessor.ts:80-97): lazily create the batch,
arming its flush timer exactly at creation. -/
def getOrCreateBatch (st : LLMState) (sessionId : String) : LLMState :=
  match lookupA st.batchMap sessionId with
  | some _ => st
  | none =>
    { st with
      batchMap := setA st.batchMap sessionId
        { audio := [], transcripts := [], timer := st.nextTimer },
      nextTimer := st.nextTimer + 1,
      armedTimers := st.armedTimers ++ [st.nextTimer] }

/-- Request construction inside `processBatch` (LLMProcessor.ts:126-143):
conditional field assignments on a base request. -/
def buildRequest (sessionId : String) (batch : Batch) : LLMRequest :=
  let base : LLMRequest :=
    { sessionId := sessionId, audio := none, transcript := none,
      transcriptionResults := none }
  let r1 :=
    if batch.audio.length > 0 then
      { base with audio := some batch.audio.flatten }
    else base
  if batch.transcripts.length > 0 then
    { r1 with
      transcript := some (String.intercalate " "
        (((batch.transcripts.map TranscriptionResult.transcript)).filter
          (fun t => t ≠ ""))),
      transcriptionResults := some batch.transcripts }
  else r1

/-- `processBatch` (LLMProcessor.ts:109-161): clear the timer, remove the
batch from the map, and — unless the batch is empty — emit the request.
(The handler invocation and its response/error events do not affect the
claims modelled here.) -/
def processBatch (st : LLMState) (sessionId : String) : LLMState :=
  match lookupA st.batchMap sessionId with
  | none => st
  | some batch =>
    let st1 :=
      { st with clearedTimers := st.clearedTimers ++ [batch.timer],
                batchMap := eraseA st.batchMap sessionId }
    if batch.audio.length = 0 ∧ batch.transcripts.length = 0 then st1
    else { st1 with requests := st1.requests ++ [buildRequest sessionId batch] }

/-- `checkBatchSize` (LLMProcessor.ts:99-107). -/
def checkBatchSize (o : ResolvedOptions) (st : LLMState) (sessionId : String) :
    LLMState :=
  match lookupA st.batchMap sessionId with
  | none => st
  | some batch =>
    if batch.audio.length + batch.transcripts.length ≥ o.maxBatchSize then
      processBatch st sessionId
    else st

/-- `processAudioChunk` (LLMProcessor.ts:62-69). -/
def processAudioChunk (o : ResolvedOptions) (st : LLMState)
    (sessionId : String) (chunkData : List Nat) : LLMState :=
  if o.includeAudio = false then st
  else
    let st1 := getOrCreateBatch st sessionId
    let st2 :=
      match lookupA st1.batchMap sessionId with
      | none => st1
      | some batch =>
        let batch' := { batch with audio := batch.audio ++ [chunkData] }
        { st1 with batchMap := setA st1.batchMap sessionId batch' }
    checkBatchSize o st2 sessionId

/-- `processTranscription` (LLMProcessor.ts:71-78). -/
def processTranscription (o : ResolvedOptions) (st : LLMState)
    (sessionId : String) (result : TranscriptionResult) : LLMState :=
  if o.includeTranscript = false then st
  else
    let st1 := getOrCreateBatch st sessionId
    let st2 :=
      match lookupA st1.batchMap sessionId with
      | none => st1
      | some batch =>
        let batch' := { batch with transcripts := batch.transcripts ++ [result] }
        { st1 with batchMap := setA st1.batchMap sessionId batch' }
    checkBatchSize o st2 sessionId

/-- Number of items in a batch, as summed by `checkBatchSize`
(`batch.audio.length + batch.transcripts.length`). -/
def itemCount (b : Batch) : Nat := b.audio.length + b.transcripts.length

/-- The two append entry points of `LLMProcessor`, abstracted so that the
flush-trigger claim quantifies over both. -/
inductive AppendOp
  | audio (chunkData : List Nat)
  | result (r : TranscriptionResult)
  deriving Repr, DecidableEq

/-- Whether the append is enabled by the inclusion options
(`includeAudio` gates `processAudioChunk`, `includeTranscript` gates
`processTranscription`). -/
def appendEnabled (o : ResolvedOptions) : AppendOp → Bool
  | .audio _ => o.includeAudio
  | .result _ => o.includeTranscript

/-- The batch contents after pushing the appended item. -/
def appendItem (b : Batch) : AppendOp → Batch
  | .audio dat => { b with audio := b.audio ++ [dat] }
  | .result r => { b with transcripts := b.transcripts ++ [r] }

/-- Dispatch to `processAudioChunk` / `processTranscription`. -/
def applyAppend (o : ResolvedOptions) (st : LLMState) (sessionId : String) :
    AppendOp → LLMState
  | .audio dat => processAudioChunk o st sessionId dat
  | .result r => processTranscription o st sessionId r

end LLM

namespace AudioStream

theorem lookupA_setA_self {β : Type} (m : List (String × β)) (k : String) (v : β) :
    lookupA (setA m k v) k = some v := by
  induction m with
  | nil => simp [setA, lookupA]
  | cons hd tl ih =>
    obtain ⟨k', v'⟩ := hd
    by_cases h : k' = k
    · simp [setA, lookupA, h]
    · simp [setA, lookupA, h, ih]

theorem lookupA_setA_ne {β : Type} (m : List (String × β)) (k k' : String) (v : β)
    (h : k' ≠ k) : lookupA (setA m k v) k' = lookupA m k' := by
  induction m with
  | nil => simp [setA, lookupA, Ne.symm h]
  | cons hd tl ih =>
    obtain ⟨k₀, v₀⟩ := hd
    by_cases h₀ : k₀ = k
    · subst h₀
      simp [setA, lookupA, Ne.symm h]
    · simp only [setA, if_neg h₀, lookupA]
      by_cases h₁ : k₀ = k'
      · simp [h₁]
      · simp [h₁, ih]

theorem lookupA_eraseA_self {β : Type} (m : List (String × β)) (k : String) :
    lookupA (eraseA m k) k = none := by
  induction m with
  | nil => simp [eraseA, lookupA]
  | cons hd tl ih =>
    obtain ⟨k', v'⟩ := hd
    by_cases h : k' = k
    · simp [eraseA, h, ih]
    · simp [eraseA, lookupA, h, ih]

theorem lookupA_eraseA_ne {β : Type} (m : List (String × β)) (k k' : String)
    (h : k' ≠ k) : lookupA (eraseA m k) k' = lookupA m k' := by
  induction m with
  | nil => simp [eraseA]
  | cons hd tl ih =>
    obtain ⟨k₀, v₀⟩ := hd
    by_cases h₀ : k₀ = k
    · subst h₀
      simp [eraseA, lookupA, Ne.symm h, ih]
    · simp only [eraseA, if_neg h₀, lookupA]
      by_cases h₁ : k₀ = k'
      · simp [h₁]
      · simp [h₁, ih]

theorem mem_addS {s : List String} {x y : String} :
    x ∈ addS s y ↔ x ∈ s ∨ x = y := by
  by_cases h : y ∈ s
  · simp only [addS, if_pos h]
    constructor
    · exact Or.inl
    · rintro (hx | rfl) <;> [exact hx; exact h]
  · simp [addS, if_neg h]

theorem addS_ne_nil (s : List String) (x : String) : addS s x ≠ [] := by
  by_cases h : x ∈ s
  · simp only [addS, if_pos h]
    intro hnil
    rw [hnil] at h
    exact absurd h (List.not_mem_nil x)
  · simp [addS, if_neg h]

theorem mem_eraseS {s : List String} {x y : String} :
    x ∈ eraseS s y ↔ x ∈ s ∧ x ≠ y := by
  induction s with
  | nil => simp [eraseS]
  | cons hd tl ih =>
    simp only [eraseS]
    split
    · next heq =>
      subst heq
      rw [ih, List.mem_cons]
      constructor
      · rintro ⟨hx, hne⟩
        exact ⟨Or.inr hx, hne⟩
      · rintro ⟨hor, hne⟩
        rcases hor with rfl | hx
        · exact absurd rfl hne
        · exact ⟨hx, hne⟩
    · next hne' =>
      rw [List.mem_cons, List.mem_cons, ih]
      constructor
      · rintro (rfl | ⟨hx, hxy⟩)
        · exact ⟨Or.inl rfl, hne'⟩
        · exact ⟨Or.inr hx, hxy⟩
      · rintro ⟨hor, hxy⟩
        rcases hor with rfl | hx
        · exact Or.inl rfl
        · exact Or.inr ⟨hx, hxy⟩

theorem lookupA_setA_cases {β : Type} {m : List (String × β)} {k k' : String}
    {v w : β} (h : lookupA (setA m k v) k' = some w) :
    (k' = k ∧ w = v) ∨ (k' ≠ k ∧ lookupA m k' = some w) := by
  by_cases hk : k' = k
  · subst hk
    rw [lookupA_setA_self] at h
    exact Or.inl ⟨rfl, (Option.some_inj.mp h).symm⟩
  · rw [lookupA_setA_ne _ _ _ _ hk] at h
    exact Or.inr ⟨hk, h⟩

theorem lookupA_eraseA_cases {β : Type} {m : List (String × β)} {k k' : String}
    {w : β} (h : lookupA (eraseA m k) k' = some w) :
    k' ≠ k ∧ lookupA m k' = some w := by
  by_cases hk : k' = k
  · subst hk
    rw [lookupA_eraseA_self] at h
    exact absurd h (by simp)
  · rw [lookupA_eraseA_ne _ _ _ hk] at h
    exact ⟨hk, h⟩

theorem strTruthy_elim {uid : Option String} (h : strTruthy uid = true) :
    uid = some (uid.getD "") ∧ uid.getD "" ≠ "" := by
  cases uid with
  | none => simp [strTruthy] at h
  | some s => simpa [strTruthy] using h

theorem strTruthy_intro {u : String} (h : u ≠ "") :
    strTruthy (some u) = true := by
  simpa [strTruthy] using h

end AudioStream

namespace WSManager

open AudioStream

theorem addConnection_cases (N : Nat) (st : Registry) (sid : String)
    (uid : Option String) :
    addConnection N st sid uid = (st, false) ∨
    addConnection N st sid uid =
      ({ connections := setA st.connections sid
          { sessionId := sid, userId := uid, isAlive := true },
         userConnections :=
           if strTruthy uid then
             setA st.userConnections (uid.getD "")
               (addS ((lookupA st.userConnections (uid.getD "")).getD []) sid)
           else st.userConnections }, true) := by
  unfold addConnection
  split
  · exact Or.inl rfl
  · exact Or.inr rfl

theorem addConnection_false_eq {N : Nat} {st : Registry} {sid : String}
    {uid : Option String} (h : (addConnection N st sid uid).2 = false) :
    (addConnection N st sid uid).1 = st := by
  rcases addConnection_cases N st sid uid with hcase | hcase
  · rw [hcase]
  · rw [hcase] at h
    simp at h

theorem removeConnection_of_none {st : Registry} {sid : String}
    (h : lookupA st.connections sid = none) :
    removeConnection st sid = st := by
  simp [removeConnection, h]

theorem removeConnection_of_some {st : Registry} {sid : String}
    {conn : WSConnection} (h : lookupA st.connections sid = some conn) :
    removeConnection st sid =
      { connections := eraseA st.connections sid,
        userConnections :=
          if strTruthy conn.userId then
            match lookupA st.userConnections (conn.userId.getD "") with
            | some userSessions =>
              if (eraseS userSessions sid).length = 0 then
                eraseA st.userConnections (conn.userId.getD "")
              else setA st.userConnections (conn.userId.getD "")
                (eraseS userSessions sid)
            | none => st.userConnections
          else st.userConnections } := by
  simp only [removeConnection, h]

theorem lookupA_removeConnection_self (st : Registry) (sid : String) :
    lookupA (removeConnection st sid).connections sid = none := by
  cases h : lookupA st.connections sid with
  | none => rw [removeConnection_of_none h, h]
  | some conn =>
    rw [removeConnection_of_some h]
    exact lookupA_eraseA_self _ _

theorem inv_empty : Inv emptyRegistry := by
  constructor <;> intros <;> simp_all [emptyRegistry, lookupA]

theorem inv_add (N : Nat) {st : Registry} (sid : String) (uid : Option String)
    (h : Inv st) (hfresh : lookupA st.connections sid = none) :
    Inv (addConnection N st sid uid).1 := by
  have fresh_ne : ∀ {sid' : String} {c : WSConnection},
      lookupA st.connections sid' = some c → sid' ≠ sid := by
    intro sid' c hc heq
    subst heq
    rw [hfresh] at hc
    cases hc
  rcases addConnection_cases N st sid uid with hcase | hcase
  · rw [hcase]
    exact h
  · rw [hcase]
    dsimp only
    cases htu : strTruthy uid with
    | false =>
      simp only [htu, Bool.false_eq_true, if_false]
      constructor
      · intro sid' c hl
        rcases lookupA_setA_cases hl with ⟨heq, hval⟩ | ⟨hne, hl'⟩
        · rw [hval]
          exact heq.symm
        · exact h.connSid _ _ hl'
      · exact h.secTruthy
      · exact h.secNonempty
      · intro u ss sid' hl hm
        obtain ⟨c, hc, hcu⟩ := h.secSub u ss sid' hl hm
        refine ⟨c, ?_, hcu⟩
        rw [lookupA_setA_ne _ _ _ _ (fresh_ne hc)]
        exact hc
      · intro sid' c u hl hcu hu
        rcases lookupA_setA_cases hl with ⟨heq, hval⟩ | ⟨hne, hl'⟩
        · exfalso
          have hcu' : uid = some u := by
            rw [hval] at hcu
            exact hcu
          have hst : strTruthy uid = true := by
            rw [hcu']
            exact strTruthy_intro hu
          rw [htu] at hst
          cases hst
        · exact h.primSec _ _ _ hl' hcu hu
    | true =>
      obtain ⟨huid, hgd⟩ := strTruthy_elim htu
      simp only [htu, if_true]
      constructor
      · intro sid' c hl
        rcases lookupA_setA_cases hl with ⟨heq, hval⟩ | ⟨hne, hl'⟩
        · rw [hval]
          exact heq.symm
        · exact h.connSid _ _ hl'
      · intro u ss hl
        rcases lookupA_setA_cases hl with ⟨heq, hval⟩ | ⟨hne, hl'⟩
        · rw [heq]
          exact hgd
        · exact h.secTruthy _ _ hl'
      · intro u ss hl
        rcases lookupA_setA_cases hl with ⟨heq, hval⟩ | ⟨hne, hl'⟩
        · rw [hval]
          exact addS_ne_nil _ _
        · exact h.secNonempty _ _ hl'
      · intro u ss sid' hl hm
        rcases lookupA_setA_cases hl with ⟨heq, hval⟩ | ⟨hne, hl'⟩
        · rw [hval] at hm
          rcases mem_addS.mp hm with hin | heq2
          · cases hus : lookupA st.userConnections (uid.getD "") with
            | none =>
              rw [hus] at hin
              simp at hin
            | some us =>
              rw [hus] at hin
              simp only [Option.getD_some] at hin
              obtain ⟨c, hc, hcu⟩ := h.secSub _ us sid' hus hin
              refine ⟨c, ?_, ?_⟩
              · rw [lookupA_setA_ne _ _ _ _ (fresh_ne hc)]
                exact hc
              · rw [heq]
                exact hcu
          · rw [heq2]
            refine ⟨{ sessionId := sid, userId := uid, isAlive := true },
              lookupA_setA_self _ _ _, ?_⟩
            rw [heq]
            exact huid
        · obtain ⟨c, hc, hcu⟩ := h.secSub u ss sid' hl' hm
          refine ⟨c, ?_, hcu⟩
          rw [lookupA_setA_ne _ _ _ _ (fresh_ne hc)]
          exact hc
      · intro sid' c u hl hcu hu
        rcases lookupA_setA_cases hl with ⟨heq, hval⟩ | ⟨hne, hl'⟩
        · have hcu' : uid = some u := by
            rw [hval] at hcu
            exact hcu
          have hueq : uid.getD "" = u := by
            rw [hcu']
            rfl
          rw [heq, ← hueq]
          exact ⟨addS ((lookupA st.userConnections (uid.getD "")).getD []) sid,
            lookupA_setA_self _ _ _, mem_addS.mpr (Or.inr rfl)⟩
        · obtain ⟨ss, hss, hmem⟩ := h.primSec _ _ _ hl' hcu hu
          by_cases hu' : u = uid.getD ""
          · rw [hu']
            refine ⟨addS ((lookupA st.userConnections (uid.getD "")).getD []) sid,
              lookupA_setA_self _ _ _, ?_⟩
            have hlu : lookupA st.userConnections (uid.getD "") = some ss := by
              rw [← hu']
              exact hss
            rw [hlu]
            exact mem_addS.mpr (Or.inl hmem)
          · refine ⟨ss, ?_, hmem⟩
            rw [lookupA_setA_ne _ _ _ _ hu']
            exact hss

theorem inv_remove {st : Registry} (sid : String) (h : Inv st) :
    Inv (removeConnection st sid) := by
  cases hc : lookupA st.connections sid with
  | none =>
    rw [removeConnection_of_none hc]
    exact h
  | some conn =>
    rw [removeConnection_of_some hc]
    cases htu : strTruthy conn.userId with
    | false =>
      simp only [htu, Bool.false_eq_true, if_false]
      constructor
      · intro sid' c hl
        exact h.connSid _ _ (lookupA_eraseA_cases hl).2
      · exact h.secTruthy
      · exact h.secNonempty
      · intro u ss sid' hl hm
        obtain ⟨c, hc', hcu⟩ := h.secSub u ss sid' hl hm
        have hne : sid' ≠ sid := by
          intro heq
          rw [heq, hc] at hc'
          have hcc := Option.some_inj.mp hc'
          have hu := h.secTruthy u ss hl
          have hst : strTruthy conn.userId = true := by
            rw [hcc, hcu]
            exact strTruthy_intro hu
          rw [htu] at hst
          cases hst
        refine ⟨c, ?_, hcu⟩
        rw [lookupA_eraseA_ne _ _ _ hne]
        exact hc'
      · intro sid' c u hl hcu hu
        exact h.primSec _ _ _ (lookupA_eraseA_cases hl).2 hcu hu
    | true =>
      obtain ⟨huid, hgd⟩ := strTruthy_elim htu
      simp only [htu, if_true]
      cases hus : lookupA st.userConnections (conn.userId.getD "") with
      | none =>
        constructor
        · intro sid' c hl
          exact h.connSid _ _ (lookupA_eraseA_cases hl).2
        · exact h.secTruthy
        · exact h.secNonempty
        · intro u ss sid' hl hm
          obtain ⟨c, hc', hcu⟩ := h.secSub u ss sid' hl hm
          have hne : sid' ≠ sid := by
            intro heq
            rw [heq, hc] at hc'
            have hcc := Option.some_inj.mp hc'
            have h1 : conn.userId = some u := by
              rw [hcc]
              exact hcu
            have h2 : conn.userId.getD "" = u := by
              rw [h1]
              rfl
            rw [h2, hl] at hus
            cases hus
          refine ⟨c, ?_, hcu⟩
          rw [lookupA_eraseA_ne _ _ _ hne]
          exact hc'
        · intro sid' c u hl hcu hu
          exact h.primSec _ _ _ (lookupA_eraseA_cases hl).2 hcu hu
      | some us =>
        dsimp only
        by_cases hemp : (eraseS us sid).length = 0
        · rw [if_pos hemp]
          constructor
          · intro sid' c hl
            exact h.connSid _ _ (lookupA_eraseA_cases hl).2
          · intro u ss hl
            exact h.secTruthy _ _ (lookupA_eraseA_cases hl).2
          · intro u ss hl
            exact h.secNonempty _ _ (lookupA_eraseA_cases hl).2
          · intro u ss sid' hl hm
            obtain ⟨hneu, hl'⟩ := lookupA_eraseA_cases hl
            obtain ⟨c, hc', hcu⟩ := h.secSub u ss sid' hl' hm
            have hne : sid' ≠ sid := by
              intro heq
              rw [heq, hc] at hc'
              have hcc := Option.some_inj.mp hc'
              have h1 : conn.userId = some u := by
                rw [hcc]
                exact hcu
              have h2 : conn.userId.getD "" = u := by
                rw [h1]
                rfl
              exact hneu h2.symm
            refine ⟨c, ?_, hcu⟩
            rw [lookupA_eraseA_ne _ _ _ hne]
            exact hc'
          · intro sid' c u hl hcu hu
            obtain ⟨hne, hl'⟩ := lookupA_eraseA_cases hl
            obtain ⟨ss, hss, hmem⟩ := h.primSec _ _ _ hl' hcu hu
            by_cases hu' : u = conn.userId.getD ""
            · exfalso
              have hss' : lookupA st.userConnections (conn.userId.getD "") = some ss := by
                rw [← hu']
                exact hss
              rw [hus] at hss'
              have husss := Option.some_inj.mp hss'
              have hmem' : sid' ∈ eraseS us sid := by
                refine mem_eraseS.mpr ⟨?_, hne⟩
                rw [husss]
                exact hmem
              have hnil : eraseS us sid = [] := List.length_eq_zero.mp hemp
              rw [hnil] at hmem'
              exact absurd hmem' (List.not_mem_nil _)
            · refine ⟨ss, ?_, hmem⟩
              rw [lookupA_eraseA_ne _ _ _ hu']
              exact hss
        · rw [if_neg hemp]
          constructor
          · intro sid' c hl
            exact h.connSid _ _ (lookupA_eraseA_cases hl).2
          · intro u ss hl
            rcases lookupA_setA_cases hl with ⟨heq, hval⟩ | ⟨hne, hl'⟩
            · rw [heq]
              exact hgd
            · exact h.secTruthy _ _ hl'
          · intro u ss hl
            rcases lookupA_setA_cases hl with ⟨heq, hval⟩ | ⟨hne, hl'⟩
            · rw [hval]
              intro hnil
              exact hemp (by rw [hnil]; rfl)
            · exact h.secNonempty _ _ hl'
          · intro u ss sid' hl hm
            rcases lookupA_setA_cases hl with ⟨heq, hval⟩ | ⟨hneu, hl'⟩
            · rw [hval] at hm
              obtain ⟨hin, hne⟩ := mem_eraseS.mp hm
              obtain ⟨c, hc', hcu⟩ := h.secSub _ us sid' hus hin
              refine ⟨c, ?_, ?_⟩
              · rw [lookupA_eraseA_ne _ _ _ hne]
                exact hc'
              · rw [heq]
                exact hcu
            · obtain ⟨c, hc', hcu⟩ := h.secSub u ss sid' hl' hm
              have hne : sid' ≠ sid := by
                intro heqs
                rw [heqs, hc] at hc'
                have hcc := Option.some_inj.mp hc'
                have h1 : conn.userId = some u := by
                  rw [hcc]
                  exact hcu
                have h2 : conn.userId.getD "" = u := by
                  rw [h1]
                  rfl
                exact hneu h2.symm
              refine ⟨c, ?_, hcu⟩
              rw [lookupA_eraseA_ne _ _ _ hne]
              exact hc'
          · intro sid' c u hl hcu hu
            obtain ⟨hne, hl'⟩ := lookupA_eraseA_cases hl
            obtain ⟨ss, hss, hmem⟩ := h.primSec _ _ _ hl' hcu hu
            by_cases hu' : u = conn.userId.getD ""
            · have hss' : lookupA st.userConnections (conn.userId.getD "") = some ss := by
                rw [← hu']
                exact hss
              rw [hus] at hss'
              have husss := Option.some_inj.mp hss'
              rw [hu']
              refine ⟨eraseS us sid, lookupA_setA_self _ _ _, ?_⟩
              refine mem_eraseS.mpr ⟨?_, hne⟩
              rw [husss]
              exact hmem
            · refine ⟨ss, ?_, hmem⟩
              rw [lookupA_setA_ne _ _ _ _ hu']
              exact hss

/-- Every reachable registry state satisfies the consistency invariant. -/
theorem inv_reachable {N : Nat} {st : Registry} (h : Reachable N st) : Inv st := by
  induction h with
  | init => exact inv_empty
  | add _ hfresh ih => exact inv_add _ _ _ ih hfresh
  | remove _ ih => exact inv_remove _ ih

/-- After `removeConnection`, no user's session set references the removed
sessionId (in invariant-satisfying states). -/
theorem remove_not_in_sec {st : Registry} (h : Inv st) (sid : String) :
    ∀ u ss, lookupA (removeConnection st sid).userConnections u = some ss →
      sid ∉ ss := by
  intro u ss hl hm
  cases hc : lookupA st.connections sid with
  | none =>
    rw [removeConnection_of_none hc] at hl
    obtain ⟨c, hc', _⟩ := h.secSub u ss sid hl hm
    rw [hc] at hc'
    cases hc'
  | some conn =>
    rw [removeConnection_of_some hc] at hl
    cases htu : strTruthy conn.userId with
    | false =>
      simp only [htu, Bool.false_eq_true, if_false] at hl
      obtain ⟨c, hc', hcu⟩ := h.secSub u ss sid hl hm
      rw [hc] at hc'
      have hcc := Option.some_inj.mp hc'
      have hu := h.secTruthy u ss hl
      have hst : strTruthy conn.userId = true := by
        rw [hcc, hcu]
        exact strTruthy_intro hu
      rw [htu] at hst
      cases hst
    | true =>
      simp only [htu, if_true] at hl
      cases hus : lookupA st.userConnections (conn.userId.getD "") with
      | none =>
        rw [hus] at hl
        dsimp only at hl
        obtain ⟨c, hc', hcu⟩ := h.secSub u ss sid hl hm
        rw [hc] at hc'
        have hcc := Option.some_inj.mp hc'
        have h1 : conn.userId = some u := by
          rw [hcc]
          exact hcu
        have h2 : conn.userId.getD "" = u := by
          rw [h1]
          rfl
        rw [h2, hl] at hus
        cases hus
      | some us =>
        rw [hus] at hl
        dsimp only at hl
        by_cases hemp : (eraseS us sid).length = 0
        · rw [if_pos hemp] at hl
          obtain ⟨hneu, hl'⟩ := lookupA_eraseA_cases hl
          obtain ⟨c, hc', hcu⟩ := h.secSub u ss sid hl' hm
          rw [hc] at hc'
          have hcc := Option.some_inj.mp hc'
          have h1 : conn.userId = some u := by
            rw [hcc]
            exact hcu
          have h2 : conn.userId.getD "" = u := by
            rw [h1]
            rfl
          exact hneu h2.symm
        · rw [if_neg hemp] at hl
          rcases lookupA_setA_cases hl with ⟨heq, hval⟩ | ⟨hneu, hl'⟩
          · rw [hval] at hm
            exact (mem_eraseS.mp hm).2 rfl
          · obtain ⟨c, hc', hcu⟩ := h.secSub u ss sid hl' hm
            rw [hc] at hc'
            have hcc := Option.some_inj.mp hc'
            have h1 : conn.userId = some u := by
              rw [hcc]
              exact hcu
            have h2 : conn.userId.getD "" = u := by
              rw [h1]
              rfl
            exact hneu h2.symm

end WSManager

open AudioStream WSManager Server LLM

/-- C4 (amended): for every positive configured per-user maximum `N` and
every non-empty `userId`, if the user's current session count has reached
`N` then `addConnection` returns `false` and leaves both indices
unchanged; if the count is below `N` the connection is registered in both
indices and `true` is returned.  (A configured maximum of `0` disables
the cap and an empty-string `userId` is registered only in the primary
index, since both are falsy in JavaScript — see the counterexample.) -/
theorem c4_admission_cap (N : Nat) (st : Registry) (sessionId u : String)
    (hN : 1 ≤ N) (hu : u ≠ "") :
    (userCount st u ≥ N →
      addConnection N st sessionId (some u) = (st, false)) ∧
    (userCount st u < N →
      (addConnection N st sessionId (some u)).2 = true ∧
      getConnection (addConnection N st sessionId (some u)).1 sessionId =
        some { sessionId := sessionId, userId := some u, isAlive := true } ∧
      sessionId ∈
        ((lookupA (addConnection N st sessionId (some u)).1.userConnections u).getD [])) := by
  have hN0 : N ≠ 0 := by omega
  have hts : strTruthy (some u) = true := strTruthy_intro hu
  constructor
  · intro hge
    have hcap : capExceeded N st (some u) = true := by
      unfold capExceeded
      rw [if_pos ⟨hts, hN0⟩]
      simp only [Option.getD_some]
      cases hus : lookupA st.userConnections u with
      | none =>
        exfalso
        unfold userCount at hge
        rw [hus] at hge
        simp at hge
        omega
      | some us =>
        unfold userCount at hge
        rw [hus] at hge
        simp only [Option.getD_some] at hge
        exact decide_eq_true hge
    unfold addConnection
    rw [hcap]
    simp
  · intro hlt
    have hcap : capExceeded N st (some u) = false := by
      unfold capExceeded
      rw [if_pos ⟨hts, hN0⟩]
      simp only [Option.getD_some]
      cases hus : lookupA st.userConnections u with
      | none => rfl
      | some us =>
        unfold userCount at hlt
        rw [hus] at hlt
        simp only [Option.getD_some] at hlt
        exact decide_eq_false (Nat.not_le.mpr hlt)
    unfold addConnection
    rw [hcap]
    simp only [Bool.false_eq_true, if_false]
    refine ⟨by trivial, lookupA_setA_self _ _ _, ?_⟩
    simp only [hts, if_true, Option.getD_some, lookupA_setA_self]
    exact mem_addS.mpr (Or.inr rfl)

/-- Witness for the amended admission-cap theorem at `N = 1`, a fresh
user and the empty registry. -/
theorem c4_admission_cap_witness :
    (1 ≤ 1 ∧ ("u1" : String) ≠ "" ∧ userCount emptyRegistry "u1" < 1) ∧
    (addConnection 1 emptyRegistry "sW" (some "u1")).2 = true := by
  refine ⟨⟨by decide, by decide, by decide⟩, ?_⟩
  exact ((c4_admission_cap 1 emptyRegistry "sW" "u1" (by decide) (by decide)).2
    (by decide)).1

/-- C4 counterexample to the claim as stated: with configured maximum
`N = 0`, user `u1` already has `0 = N` registered sessions, yet admission
returns `true` and registers the session (the cap is never enforced
because `0` is falsy); and with maximum `5` and userId `""`, the
"otherwise" branch returns `true` but the session is registered only in
the primary index — the secondary index stays empty. -/
theorem c4_counterexample :
    userCount emptyRegistry "u1" = 0 ∧
    (addConnection 0 emptyRegistry "s1" (some "u1")).2 = true ∧
    getConnection (addConnection 0 emptyRegistry "s1" (some "u1")).1 "s1" =
      some { sessionId := "s1", userId := some "u1", isAlive := true } ∧
    (addConnection 5 emptyRegistry "s2" (some "")).2 = true ∧
    (addConnection 5 emptyRegistry "s2" (some "")).1.userConnections = [] := by
  refine ⟨rfl, rfl, by decide, rfl, rfl⟩

/-- C5 (amended): in every reachable registry state (caller-unique
sessionIds), every sessionId in any user's set of the secondary index
has an entry in the primary index; the secondary index holds no empty
sets; for every session registered with a non-empty userId,
`getConnectionsByUser` includes it iff `getConnection` returns it; and
after `removeConnection`, neither index references the removed
sessionId.  (A session admitted with the empty-string userId appears only
in the primary index — see the counterexample.) -/
theorem c5_index_consistency (N : Nat) (st : Registry) (h : Reachable N st) :
    (∀ u ss sid, lookupA st.userConnections u = some ss → sid ∈ ss →
      ∃ c, getConnection st sid = some c) ∧
    (∀ u ss, lookupA st.userConnections u = some ss → ss ≠ []) ∧
    (∀ sid c u, getConnection st sid = some c → c.userId = some u → u ≠ "" →
      ∃ c', c' ∈ getConnectionsByUser st u ∧ c'.sessionId = sid) ∧
    (∀ u c, c ∈ getConnectionsByUser st u → getConnection st c.sessionId = some c) ∧
    (∀ sid, getConnection (removeConnection st sid) sid = none ∧
      ∀ u ss, lookupA (removeConnection st sid).userConnections u = some ss →
        sid ∉ ss) := by
  have hinv := inv_reachable h
  refine ⟨?_, hinv.secNonempty, ?_, ?_, ?_⟩
  · intro u ss sid hl hm
    obtain ⟨c, hc, _⟩ := hinv.secSub u ss sid hl hm
    exact ⟨c, hc⟩
  · intro sid c u hg hcu hu
    obtain ⟨ss, hss, hmem⟩ := hinv.primSec sid c u hg hcu hu
    refine ⟨c, ?_, hinv.connSid _ _ hg⟩
    unfold getConnectionsByUser
    rw [hss]
    exact List.mem_filterMap.mpr ⟨sid, hmem, hg⟩
  · intro u c hc
    unfold getConnectionsByUser at hc
    cases hl : lookupA st.userConnections u with
    | none =>
      rw [hl] at hc
      cases hc
    | some ss =>
      rw [hl] at hc
      obtain ⟨sid, hmem, hlk⟩ := List.mem_filterMap.mp hc
      have hsid := hinv.connSid _ _ hlk
      rw [hsid]
      exact hlk
  · intro sid
    exact ⟨lookupA_removeConnection_self st sid, remove_not_in_sec hinv sid⟩

/-- Witness: a concrete reachable one-session registry in which the
session admitted for `u1` is found by `getConnectionsByUser`. -/
theorem c5_index_consistency_witness :
    Reachable 5 (addConnection 5 emptyRegistry "s1" (some "u1")).1 ∧
    ∃ c', c' ∈ getConnectionsByUser
        (addConnection 5 emptyRegistry "s1" (some "u1")).1 "u1" ∧
      c'.sessionId = "s1" := by
  have hreach : Reachable 5 (addConnection 5 emptyRegistry "s1" (some "u1")).1 :=
    Reachable.add Reachable.init (by rfl)
  refine ⟨hreach, ?_⟩
  exact (c5_index_consistency 5 _ hreach).2.2.1 "s1"
    { sessionId := "s1", userId := some "u1", isAlive := true } "u1"
    (by decide) (by decide) (by decide)

/-- C5 counterexample to the claim as stated: the reachable state
obtained by admitting `s1` with userId `""` has `getConnection` return
the session while `getConnectionsByUser ""` does not include it, because
`if (userId)` is false for the empty string and the session is never
added to the secondary index. -/
theorem c5_counterexample :
    Reachable 5 (addConnection 5 emptyRegistry "s1" (some "")).1 ∧
    getConnection (addConnection 5 emptyRegistry "s1" (some "")).1 "s1" =
      some { sessionId := "s1", userId := some "", isAlive := true } ∧
    getConnectionsByUser (addConnection 5 emptyRegistry "s1" (some "")).1 "" = [] := by
  refine ⟨Reachable.add Reachable.init (by rfl), by decide, rfl⟩

/-- C6: `removeConnection` on an unknown sessionId is a no-op on the
registry state; removing twice equals removing once; and when the
removed connection's user set becomes empty, the user's entry is deleted
from the secondary index. -/
theorem c6_remove_idempotent (st : Registry) (sessionId : String) :
    (getConnection st sessionId = none → removeConnection st sessionId = st) ∧
    removeConnection (removeConnection st sessionId) sessionId =
      removeConnection st sessionId ∧
    (∀ conn u, getConnection st sessionId = some conn → conn.userId = some u →
      u ≠ "" →
      eraseS ((lookupA st.userConnections u).getD []) sessionId = [] →
      lookupA (removeConnection st sessionId).userConnections u = none) := by
  refine ⟨?_, ?_, ?_⟩
  · intro h
    exact removeConnection_of_none h
  · exact removeConnection_of_none (lookupA_removeConnection_self st sessionId)
  · intro conn u hconn hcu hu hemp
    have hts : strTruthy conn.userId = true := by
      rw [hcu]
      exact strTruthy_intro hu
    rw [removeConnection_of_some hconn]
    simp only [hts, if_true]
    have hgd2 : conn.userId.getD "" = u := by
      rw [hcu]
      rfl
    rw [hgd2]
    cases hus : lookupA st.userConnections u with
    | none => exact hus
    | some us =>
      dsimp only
      have hemp' : eraseS us sessionId = [] := by
        rw [hus] at hemp
        simpa using hemp
      have hlen : (eraseS us sessionId).length = 0 := by
        rw [hemp']
        rfl
      rw [if_pos hlen]
      exact lookupA_eraseA_self _ _

/-- Witness for removal idempotence on a concrete one-session registry. -/
theorem c6_remove_idempotent_witness :
    removeConnection
        (removeConnection (addConnection 5 emptyRegistry "s1" (some "u1")).1 "s1")
        "s1" =
      removeConnection (addConnection 5 emptyRegistry "s1" (some "u1")).1 "s1" ∧
    lookupA
        (removeConnection (addConnection 5 emptyRegistry "s1" (some "u1")).1
          "s1").userConnections "u1" = none := by
  have h := c6_remove_idempotent (addConnection 5 emptyRegistry "s1" (some "u1")).1 "s1"
  refine ⟨h.2.1, ?_⟩
  exact h.2.2 { sessionId := "s1", userId := some "u1", isAlive := true } "u1"
    (by decide) (by decide) (by decide) (by decide)

namespace Server

theorem arrivals_cons (l : SrvLabel) (L : List SrvLabel) :
    arrivals (l :: L) = arrivals [l] ++ arrivals L := by
  cases l <;> simp [arrivals]

/-- While the queue-registered call is outstanding, any step other than
its completion only appends newly arrived chunks to the buffer, keeps the
call outstanding, and dispatches nothing. -/
theorem step_keeps_queueCall {llm : Bool} {s s' : SrvState} {p : List Nat}
    {l : SrvLabel} (hq : s.queueCall = some p) (hl : notCompleteQueue l)
    (hs : step llm s l = some s') :
    s'.queueCall = some p ∧ s'.buffer = s.buffer ++ arrivals [l] ∧
    s'.calls = s.calls := by
  cases l with
  | completeQueue res => cases hl
  | arrive c =>
    simp only [step, hq, Option.some.injEq] at hs
    subst hs
    exact ⟨rfl, rfl, rfl⟩
  | completeDrain res =>
    cases hd : s.drain with
    | calling q =>
      simp only [step, hd, Option.some.injEq] at hs
      subst hs
      exact ⟨hq, by simp [arrivals], rfl⟩
    | idle =>
      simp only [step, hd] at hs
      cases hs
    | waiting =>
      simp only [step, hd] at hs
      cases hs
    | done =>
      simp only [step, hd] at hs
      cases hs
  | stop =>
    cases hd : s.drain with
    | idle =>
      simp only [step, hd, hq, Option.some.injEq] at hs
      subst hs
      exact ⟨rfl, by simp [arrivals], rfl⟩
    | waiting =>
      simp only [step, hd] at hs
      cases hs
    | calling q =>
      simp only [step, hd] at hs
      cases hs
    | done =>
      simp only [step, hd] at hs
      cases hs

/-- Iterated version of `step_keeps_queueCall`. -/
theorem runSteps_keeps_queueCall {llm : Bool} {p : List Nat}
    {L : List SrvLabel} {s s₁ : SrvState}
    (hq : s.queueCall = some p) (hL : ∀ l ∈ L, notCompleteQueue l)
    (hr : runSteps llm s L = some s₁) :
    s₁.queueCall = some p ∧ s₁.buffer = s.buffer ++ arrivals L ∧
    s₁.calls = s.calls := by
  induction L generalizing s with
  | nil =>
    unfold runSteps at hr
    injection hr with hr
    subst hr
    exact ⟨hq, by simp [arrivals], rfl⟩
  | cons l rest ih =>
    unfold runSteps at hr
    cases hstep : step llm s l with
    | none =>
      rw [hstep] at hr
      cases hr
    | some s' =>
      rw [hstep] at hr
      obtain ⟨h1, h2, h3⟩ := step_keeps_queueCall hq (hL l (by simp)) hstep
      obtain ⟨g1, g2, g3⟩ := ih h1 (fun l' hl' => hL l' (by simp [hl'])) hr
      refine ⟨g1, ?_, by rw [g3, h3]⟩
      rw [g2, h2, List.append_assoc, ← arrivals_cons l rest]

/-- The quiescent-drain invariant is established by the `stop` step. -/
theorem drainInv_stop {llm : Bool} {s s' : SrvState}
    (hidle : s.drain = .idle) (hs : step llm s .stop = some s') :
    DrainInv s' := by
  cases hqc : s.queueCall with
  | some q =>
    simp only [step, hidle, hqc, Option.some.injEq] at hs
    subst hs
    refine ⟨?_, ?_⟩
    · intro p hp
      cases hp
    · intro hp
      cases hp
  | none =>
    simp only [step, hidle, hqc] at hs
    by_cases hb : s.buffer.isEmpty = true
    · rw [if_pos hb] at hs
      injection hs with hs
      subst hs
      refine ⟨?_, fun _ => rfl⟩
      intro p hp
      cases hp
    · rw [if_neg hb] at hs
      injection hs with hs
      subst hs
      refine ⟨?_, ?_⟩
      · intro p hp
        exact ⟨rfl, rfl⟩
      · intro hp
        cases hp

/-- The quiescent-drain invariant is preserved by completion steps. -/
theorem drainInv_step {llm : Bool} {s s' : SrvState} {l : SrvLabel}
    (hinv : DrainInv s) (hcomp : isCompletion l)
    (hs : step llm s l = some s') : DrainInv s' := by
  cases l with
  | arrive c => cases hcomp
  | stop => cases hcomp
  | completeQueue res =>
    cases hqc : s.queueCall with
    | none =>
      simp only [step, hqc] at hs
      cases hs
    | some q =>
      cases hd : s.drain with
      | waiting =>
        simp only [step, hqc, hd] at hs
        by_cases hb : s.buffer.isEmpty = true
        · rw [if_pos hb] at hs
          injection hs with hs
          subst hs
          refine ⟨?_, fun _ => rfl⟩
          intro p hp
          cases hp
        · rw [if_neg hb] at hs
          injection hs with hs
          subst hs
          refine ⟨?_, ?_⟩
          · intro p hp
            exact ⟨rfl, rfl⟩
          · intro hp
            cases hp
      | idle =>
        simp only [step, hqc, hd, Option.some.injEq] at hs
        subst hs
        refine ⟨?_, ?_⟩
        · intro p hp
          cases hp
        · intro hp
          cases hp
      | calling q' =>
        obtain ⟨_, hqn⟩ := hinv.1 q' hd
        rw [hqc] at hqn
        cases hqn
      | done =>
        simp only [step, hqc, hd, Option.some.injEq] at hs
        subst hs
        refine ⟨?_, fun _ => hinv.2 hd⟩
        intro p hp
        cases hp
  | completeDrain res =>
    cases hd : s.drain with
    | calling q =>
      obtain ⟨hbuf, hqn⟩ := hinv.1 q hd
      simp only [step, hd, Option.some.injEq] at hs
      subst hs
      refine ⟨?_, fun _ => ?_⟩
      · intro p hp
        cases hp
      · rw [hbuf, hqn]
    | idle =>
      simp only [step, hd] at hs
      cases hs
    | waiting =>
      simp only [step, hd] at hs
      cases hs
    | done =>
      simp only [step, hd] at hs
      cases hs

/-- Iterated version of `drainInv_step`. -/
theorem drainInv_run {llm : Bool} {L : List SrvLabel} {s s' : SrvState}
    (hinv : DrainInv s) (hL : ∀ l ∈ L, isCompletion l)
    (hr : runSteps llm s L = some s') : DrainInv s' := by
  induction L generalizing s with
  | nil =>
    unfold runSteps at hr
    injection hr with hr
    subst hr
    exact hinv
  | cons l rest ih =>
    unfold runSteps at hr
    cases hstep : step llm s l with
    | none =>
      rw [hstep] at hr
      cases hr
    | some s₀ =>
      rw [hstep] at hr
      exact ih (drainInv_step hinv (hL l (by simp)) hstep)
        (fun l' hl' => hL l' (by simp [hl'])) hr

/-- Every branch of a completion step appends exactly the result-handling
actions. -/
theorem step_actions_append {llm : Bool} {s s' : SrvState}
    {res : Option String} {l : SrvLabel}
    (hcomp : isCompletion l)
    (hres : l = SrvLabel.completeQueue res ∨ l = SrvLabel.completeDrain res)
    (hs : step llm s l = some s') :
    s'.actions = s.actions ++ handleResult llm res := by
  cases l with
  | arrive c => cases hcomp
  | stop => cases hcomp
  | completeQueue res' =>
    have hres' : res' = res := by
      rcases hres with h | h
      · cases h
        rfl
      · cases h
    subst hres'
    cases hqc : s.queueCall with
    | none =>
      simp only [step, hqc] at hs
      cases hs
    | some q =>
      cases hd : s.drain with
      | waiting =>
        simp only [step, hqc, hd] at hs
        by_cases hb : s.buffer.isEmpty = true
        · rw [if_pos hb] at hs
          injection hs with hs
          subst hs
          rfl
        · rw [if_neg hb] at hs
          injection hs with hs
          subst hs
          rfl
      | idle =>
        simp only [step, hqc, hd, Option.some.injEq] at hs
        subst hs
        rfl
      | calling q' =>
        simp only [step, hqc, hd, Option.some.injEq] at hs
        subst hs
        rfl
      | done =>
        simp only [step, hqc, hd, Option.some.injEq] at hs
        subst hs
        rfl
  | completeDrain res' =>
    have hres' : res' = res := by
      rcases hres with h | h
      · cases h
      · cases h
        rfl
    subst hres'
    cases hd : s.drain with
    | calling q =>
      simp only [step, hd, Option.some.injEq] at hs
      subst hs
      rfl
    | idle =>
      simp only [step, hd] at hs
      cases hs
    | waiting =>
      simp only [step, hd] at hs
      cases hs
    | done =>
      simp only [step, hd] at hs
      cases hs

end Server

/-- C1: the single-flight invariant is violated by the code.  In the
interleaving where a frame is dispatched, a second frame is buffered, a
stop-recording drain awaits the ongoing call, the call completes (so the
drain dispatches the buffered audio outside the `processingQueue`
guard), and a third frame then arrives, `handleAudioData` finds no
`processingQueue` entry and starts a second `processAudio` call while
the drain's call is still outstanding: two concurrent calls. -/
theorem c1_two_concurrent_calls :
    (Server.runSteps false Server.initSrv
      [Server.SrvLabel.arrive 1, Server.SrvLabel.arrive 2, Server.SrvLabel.stop,
       Server.SrvLabel.completeQueue (some "a"), Server.SrvLabel.arrive 3]).map
      Server.outstanding = some 2 := by
  rfl

/-- C2 counterexample: three frames arrive while the first call (covering
only frame 1) is outstanding; when that call completes, no new call is
started — the call log still holds only `[1]`, nothing is outstanding,
and frames 2–3 sit in the buffer — contradicting "immediately start a
new call with exactly that accumulated audio" and the claimed two-call
scenario. -/
theorem c2_counterexample :
    (Server.runSteps false Server.initSrv
      [Server.SrvLabel.arrive 1, Server.SrvLabel.arrive 2,
       Server.SrvLabel.arrive 3]).map
      (fun s => (s.buffer, s.queueCall)) = some ([2, 3], some [1]) ∧
    (Server.runSteps false Server.initSrv
      [Server.SrvLabel.arrive 1, Server.SrvLabel.arrive 2,
       Server.SrvLabel.arrive 3, Server.SrvLabel.completeQueue (some "a")]).map
      (fun s => (s.buffer, s.calls, Server.outstanding s)) =
      some ([2, 3], [[1]], 0) := by
  exact ⟨rfl, rfl⟩

/-- C2 (amended): on completion of the queue-registered call (with no
stop drain waiting) the lock is released but no new call is started by
the completion itself — audio accumulated during the call stays
buffered until the next inbound frame, whose handler then dispatches the
whole accumulated buffer; in the three-frame scenario the first call
covers only frame 1 and frames 2–3 remain buffered with no second call.
(When a stop drain is waiting, the drain itself dispatches the
remainder.) -/
theorem c2_no_dispatch_on_completion (llm : Bool) (s s' : Server.SrvState)
    (res : Option String) (hnw : s.drain ≠ Server.DrainPhase.waiting)
    (hs : Server.step llm s (Server.SrvLabel.completeQueue res) = some s') :
    s'.buffer = s.buffer ∧ s'.calls = s.calls ∧ s'.queueCall = none ∧
    (∀ c s'', Server.step llm s' (Server.SrvLabel.arrive c) = some s'' →
      s''.calls = s.calls ++ [s.buffer ++ [c]] ∧
      s''.queueCall = some (s.buffer ++ [c]) ∧ s''.buffer = []) := by
  cases hqc : s.queueCall with
  | none =>
    simp only [Server.step, hqc] at hs
    cases hs
  | some q =>
    cases hd : s.drain with
    | waiting => exact absurd hd hnw
    | idle =>
      simp only [Server.step, hqc, hd, Option.some.injEq] at hs
      subst hs
      refine ⟨rfl, rfl, rfl, ?_⟩
      intro c s'' hs2
      simp only [Server.step, Option.some.injEq] at hs2
      subst hs2
      exact ⟨rfl, rfl, rfl⟩
    | calling q' =>
      simp only [Server.step, hqc, hd, Option.some.injEq] at hs
      subst hs
      refine ⟨rfl, rfl, rfl, ?_⟩
      intro c s'' hs2
      simp only [Server.step, Option.some.injEq] at hs2
      subst hs2
      exact ⟨rfl, rfl, rfl⟩
    | done =>
      simp only [Server.step, hqc, hd, Option.some.injEq] at hs
      subst hs
      refine ⟨rfl, rfl, rfl, ?_⟩
      intro c s'' hs2
      simp only [Server.step, Option.some.injEq] at hs2
      subst hs2
      exact ⟨rfl, rfl, rfl⟩

/-- Witness for the amended drain-on-completion theorem at a concrete
mid-call state with frames 2–3 buffered. -/
theorem c2_no_dispatch_on_completion_witness :
    ({ buffer := [2, 3], queueCall := some [1], drain := Server.DrainPhase.idle,
       calls := [[1]], actions := [], ack := none,
       lastErrorBuffer := none } : Server.SrvState).drain ≠
        Server.DrainPhase.waiting ∧
    ∃ s', Server.step false
        { buffer := [2, 3], queueCall := some [1],
          drain := Server.DrainPhase.idle, calls := [[1]], actions := [],
          ack := none, lastErrorBuffer := none }
        (Server.SrvLabel.completeQueue (some "x")) = some s' ∧
      s'.buffer = [2, 3] ∧ s'.calls = [[1]] ∧ s'.queueCall = none := by
  refine ⟨by decide, ?_⟩
  refine ⟨_, rfl, ?_⟩
  have h := c2_no_dispatch_on_completion false
    { buffer := [2, 3], queueCall := some [1], drain := Server.DrainPhase.idle,
      calls := [[1]], actions := [], ack := none, lastErrorBuffer := none }
    { buffer := [2, 3], queueCall := none, drain := Server.DrainPhase.idle,
      calls := [[1]],
      actions := [Server.SrvAction.sendTranscription "x",
                  Server.SrvAction.emitTranscription "x"],
      ack := none, lastErrorBuffer := none }
    (some "x") (by decide) (by rfl)
  exact ⟨h.1, h.2.1, h.2.2.1⟩

/-- C3 counterexample: a frame arriving during the drain starts its own
call (the C1 interleaving); at the instant the `recording-stopped`
acknowledgement is sent, the buffer holds frame 4 and one transcription
call is still outstanding — the recorded acknowledgement snapshot is
`([4], 1)`, not `([], 0)`. -/
theorem c3_counterexample :
    (Server.runSteps false Server.initSrv
      [Server.SrvLabel.arrive 1, Server.SrvLabel.arrive 2, Server.SrvLabel.stop,
       Server.SrvLabel.completeQueue (some "a"), Server.SrvLabel.arrive 3,
       Server.SrvLabel.arrive 4, Server.SrvLabel.completeDrain (some "b")]).map
      (fun s => s.ack) = some (some ([4], 1)) := by
  rfl

/-- C3 (amended): provided no audio frame arrives between the
`stop-recording` message and the acknowledgement (only provider
completions run), then at the instant the `recording-stopped`
acknowledgement is sent the session's buffer is empty and no
transcription call is outstanding. -/
theorem c3_quiescent_drain_complete (llm : Bool) (s s' : Server.SrvState)
    (L : List Server.SrvLabel) (hidle : s.drain = Server.DrainPhase.idle)
    (hL : ∀ l ∈ L, Server.isCompletion l)
    (hr : Server.runSteps llm s (Server.SrvLabel.stop :: L) = some s')
    (hdone : s'.drain = Server.DrainPhase.done) :
    s'.ack = some ([], 0) := by
  unfold Server.runSteps at hr
  cases hstep : Server.step llm s Server.SrvLabel.stop with
  | none =>
    rw [hstep] at hr
    cases hr
  | some s₀ =>
    rw [hstep] at hr
    exact (Server.drainInv_run (Server.drainInv_stop hidle hstep) hL hr).2 hdone

/-- Witness for the quiescent drain: from a session with one buffered
chunk and no outstanding call, `stop` dispatches it, the drain call
completes, and the acknowledgement records an empty buffer and zero
outstanding calls. -/
theorem c3_quiescent_drain_complete_witness :
    ({ buffer := [1], queueCall := none, drain := Server.DrainPhase.idle,
       calls := [], actions := [], ack := none,
       lastErrorBuffer := none } : Server.SrvState).drain =
        Server.DrainPhase.idle ∧
    ∃ s', Server.runSteps false
        { buffer := [1], queueCall := none, drain := Server.DrainPhase.idle,
          calls := [], actions := [], ack := none, lastErrorBuffer := none }
        [Server.SrvLabel.stop, Server.SrvLabel.completeDrain (some "x")] =
          some s' ∧
      s'.drain = Server.DrainPhase.done ∧ s'.ack = some ([], 0) := by
  refine ⟨rfl, ?_⟩
  refine ⟨_, rfl, rfl, ?_⟩
  exact c3_quiescent_drain_complete false
    { buffer := [1], queueCall := none, drain := Server.DrainPhase.idle,
      calls := [], actions := [], ack := none, lastErrorBuffer := none }
    _ [Server.SrvLabel.completeDrain (some "x")] rfl
    (by intro l hl; simp at hl; subst hl; trivial) rfl rfl

/-- C7: a successful result with an empty transcript produces no client
message, no transcription event and no forward to the batch processor
(`if (result.transcript)` is false); a non-empty transcript is delivered
to the connection and emitted as a transcription event (and forwarded to
the batch processor when LLM processing is enabled); and every
completion step appends exactly the result-handling actions. -/
theorem c7_empty_transcript_suppression (llm : Bool) (s s' : Server.SrvState)
    (res : Option String) (t : String) :
    Server.handleResult llm (some "") = [] ∧
    (t ≠ "" → Server.handleResult llm (some t) =
      Server.SrvAction.sendTranscription t ::
        Server.SrvAction.emitTranscription t ::
        (if llm then [Server.SrvAction.forwardToLLM t] else [])) ∧
    (Server.step llm s (Server.SrvLabel.completeQueue res) = some s' →
      s'.actions = s.actions ++ Server.handleResult llm res) ∧
    (Server.step llm s (Server.SrvLabel.completeDrain res) = some s' →
      s'.actions = s.actions ++ Server.handleResult llm res) := by
  refine ⟨by simp [Server.handleResult],
    fun ht => by simp [Server.handleResult, ht], ?_, ?_⟩
  · intro hs
    exact Server.step_actions_append
      (show Server.isCompletion (Server.SrvLabel.completeQueue res) from trivial)
      (Or.inl rfl) hs
  · intro hs
    exact Server.step_actions_append
      (show Server.isCompletion (Server.SrvLabel.completeDrain res) from trivial)
      (Or.inr rfl) hs

/-- Witness for empty-transcript suppression at a concrete completion:
the empty transcript appends no actions, a non-empty one appends
delivery, event and LLM forward. -/
theorem c7_empty_transcript_suppression_witness :
    Server.handleResult true (some "") = [] ∧
    ("hi" : String) ≠ "" ∧
    Server.handleResult true (some "hi") =
      [Server.SrvAction.sendTranscription "hi",
       Server.SrvAction.emitTranscription "hi",
       Server.SrvAction.forwardToLLM "hi"] ∧
    ∃ s', Server.step true
        { buffer := [], queueCall := some [1], drain := Server.DrainPhase.idle,
          calls := [[1]], actions := [], ack := none, lastErrorBuffer := none }
        (Server.SrvLabel.completeQueue (some "")) = some s' ∧
      s'.actions = [] := by
  have h := c7_empty_transcript_suppression true
    { buffer := [], queueCall := some [1], drain := Server.DrainPhase.idle,
      calls := [[1]], actions := [], ack := none, lastErrorBuffer := none }
    { buffer := [], queueCall := none, drain := Server.DrainPhase.idle,
      calls := [[1]], actions := [], ack := none, lastErrorBuffer := none }
    (some "") "hi"
  refine ⟨h.1, by decide, ?_, ?_⟩
  · have h2 := h.2.1 (by decide)
    simp only [if_true] at h2
    exact h2
  · refine ⟨_, rfl, ?_⟩
    have h3 := h.2.2.1 (by rfl)
    rw [h.1] at h3
    exact h3

/-- C9 (implicit): the buffer is spliced out at dispatch time, so a
failed call's payload is not restored and is never re-dispatched: at the
instant the session-scoped error event is emitted, the buffer contains
exactly the chunks that arrived after the failed dispatch began; during
the call no dispatch happens at all, and the only call the failing
completion itself can start (for a waiting stop drain) covers exactly
the newly arrived chunks. -/
theorem c9_dispatched_audio_lost (llm : Bool) (s s₁ s₂ : Server.SrvState)
    (p : List Nat) (L : List Server.SrvLabel)
    (hq : s.queueCall = some p) (hb : s.buffer = [])
    (hL : ∀ l ∈ L, Server.notCompleteQueue l)
    (hr : Server.runSteps llm s L = some s₁)
    (hf : Server.step llm s₁ (Server.SrvLabel.completeQueue none) = some s₂) :
    s₁.calls = s.calls ∧
    s₂.lastErrorBuffer = some (Server.arrivals L) ∧
    s₂.queueCall = none ∧
    (∀ q, q ∈ s₂.calls → q ∈ s.calls ∨ q = Server.arrivals L) ∧
    (∀ (s₀ : Server.SrvState) (c : Nat) (s₀' : Server.SrvState),
      s₀.queueCall = none →
      Server.step llm s₀ (Server.SrvLabel.arrive c) = some s₀' →
      s₀'.buffer = [] ∧ s₀'.queueCall = some (s₀.buffer ++ [c]) ∧
      s₀'.calls = s₀.calls ++ [s₀.buffer ++ [c]]) := by
  obtain ⟨g1, g2, g3⟩ := Server.runSteps_keeps_queueCall hq hL hr
  have hbuf : s₁.buffer = Server.arrivals L := by
    rw [g2, hb]
    simp
  have hmain : s₂.lastErrorBuffer = some (Server.arrivals L) ∧
      s₂.queueCall = none ∧
      (s₂.calls = s₁.calls ∨ s₂.calls = s₁.calls ++ [Server.arrivals L]) := by
    cases hd : s₁.drain with
    | waiting =>
      simp only [Server.step, g1, hd] at hf
      by_cases hbe : s₁.buffer.isEmpty = true
      · rw [if_pos hbe] at hf
        injection hf with hf
        subst hf
        refine ⟨?_, rfl, Or.inl rfl⟩
        simp [hbuf]
      · rw [if_neg hbe] at hf
        injection hf with hf
        subst hf
        refine ⟨?_, rfl, Or.inr (by rw [hbuf])⟩
        simp [hbuf]
    | idle =>
      simp only [Server.step, g1, hd, Option.some.injEq] at hf
      subst hf
      refine ⟨?_, rfl, Or.inl rfl⟩
      simp [hbuf]
    | calling q' =>
      simp only [Server.step, g1, hd, Option.some.injEq] at hf
      subst hf
      refine ⟨?_, rfl, Or.inl rfl⟩
      simp [hbuf]
    | done =>
      simp only [Server.step, g1, hd, Option.some.injEq] at hf
      subst hf
      refine ⟨?_, rfl, Or.inl rfl⟩
      simp [hbuf]
  refine ⟨g3, hmain.1, hmain.2.1, ?_, ?_⟩
  · intro q hq2
    rcases hmain.2.2 with hcalls | hcalls
    · rw [hcalls, g3] at hq2
      exact Or.inl hq2
    · rw [hcalls, g3] at hq2
      rcases List.mem_append.mp hq2 with hin | hin
      · exact Or.inl hin
      · exact Or.inr (by simpa using hin)
  · intro s₀ c s₀' h0 hs0
    simp only [Server.step, h0, Option.some.injEq] at hs0
    subst hs0
    exact ⟨rfl, rfl, rfl⟩

/-- Witness for the lost-audio behaviour: call on payload `[1]`
outstanding with an empty buffer, chunk `7` arrives during the call, the
call fails; at the error event the buffer is exactly `[7]` and the call
log is unchanged. -/
theorem c9_dispatched_audio_lost_witness :
    ∃ s₁ s₂, Server.runSteps false
        { buffer := [], queueCall := some [1], drain := Server.DrainPhase.idle,
          calls := [[1]], actions := [], ack := none, lastErrorBuffer := none }
        [Server.SrvLabel.arrive 7] = some s₁ ∧
      Server.step false s₁ (Server.SrvLabel.completeQueue none) = some s₂ ∧
      s₁.calls = [[1]] ∧ s₂.lastErrorBuffer = some [7] ∧
      s₂.queueCall = none := by
  refine ⟨_, _, rfl, rfl, ?_, ?_, ?_⟩
  all_goals
    have h := c9_dispatched_audio_lost false
      { buffer := [], queueCall := some [1], drain := Server.DrainPhase.idle,
        calls := [[1]], actions := [], ack := none, lastErrorBuffer := none }
      { buffer := [7], queueCall := some [1], drain := Server.DrainPhase.idle,
        calls := [[1]], actions := [], ack := none, lastErrorBuffer := none }
      { buffer := [7], queueCall := none, drain := Server.DrainPhase.idle,
        calls := [[1]], actions := [Server.SrvAction.emitError], ack := none,
        lastErrorBuffer := some [7] }
      [1] [Server.SrvLabel.arrive 7] rfl rfl
      (by intro l hl; simp at hl; subst hl; trivial) rfl rfl
  · exact h.1
  · exact h.2.1
  · exact h.2.2.1

namespace LLM

open AudioStream

theorem processBatch_armed (st : LLMState) (sid : String) :
    (processBatch st sid).armedTimers = st.armedTimers := by
  unfold processBatch
  cases h : lookupA st.batchMap sid with
  | none => rfl
  | some b =>
    dsimp only
    split
    · rfl
    · rfl

theorem processBatch_of_some {st : LLMState} {sid : String} {b : Batch}
    (h : lookupA st.batchMap sid = some b) :
    (processBatch st sid).clearedTimers = st.clearedTimers ++ [b.timer] ∧
    lookupA (processBatch st sid).batchMap sid = none := by
  unfold processBatch
  rw [h]
  dsimp only
  split
  · exact ⟨rfl, lookupA_eraseA_self _ _⟩
  · exact ⟨rfl, lookupA_eraseA_self _ _⟩

theorem getOrCreateBatch_of_some {st : LLMState} {sid : String} {b : Batch}
    (h : lookupA st.batchMap sid = some b) :
    getOrCreateBatch st sid = st := by
  unfold getOrCreateBatch
  rw [h]

theorem getOrCreateBatch_of_none {st : LLMState} {sid : String}
    (h : lookupA st.batchMap sid = none) :
    getOrCreateBatch st sid =
      { st with
        batchMap := setA st.batchMap sid
          { audio := [], transcripts := [], timer := st.nextTimer },
        nextTimer := st.nextTimer + 1,
        armedTimers := st.armedTimers ++ [st.nextTimer] } := by
  unfold getOrCreateBatch
  rw [h]

/-- The append entry points perform: get-or-create, push, size check.
This characterizes the state between push and size check. -/
theorem applyAppend_eq (o : ResolvedOptions) (st : LLMState) (sid : String)
    (op : AppendOp) (hen : appendEnabled o op = true) :
    applyAppend o st sid op =
      checkBatchSize o
        { getOrCreateBatch st sid with
          batchMap := setA (getOrCreateBatch st sid).batchMap sid
            (appendItem
              ((lookupA (getOrCreateBatch st sid).batchMap sid).getD
                { audio := [], transcripts := [], timer := st.nextTimer })
              op) }
        sid := by
  cases op with
  | audio dat =>
    have hia : o.includeAudio = true := hen
    unfold applyAppend processAudioChunk
    rw [hia]
    simp only [Bool.true_eq_false, if_false]
    cases h : lookupA st.batchMap sid with
    | some b =>
      rw [getOrCreateBatch_of_some h]
      rw [h]
      rfl
    | none =>
      rw [getOrCreateBatch_of_none h]
      dsimp only
      rw [lookupA_setA_self]
      rfl
  | result r =>
    have hit : o.includeTranscript = true := hen
    unfold applyAppend processTranscription
    rw [hit]
    simp only [Bool.true_eq_false, if_false]
    cases h : lookupA st.batchMap sid with
    | some b =>
      rw [getOrCreateBatch_of_some h]
      rw [h]
      rfl
    | none =>
      rw [getOrCreateBatch_of_none h]
      dsimp only
      rw [lookupA_setA_self]
      rfl

end LLM

/-- C8: the flush timer is armed exactly once, at batch creation by the
first (enabled) append — appends to an existing batch arm no timer and
leave the batch's timer unchanged — and after every append, if the
number of audio items plus transcript items has reached the configured
`maxBatchSize`, the batch is flushed immediately (removed from the map,
its timer cleared, superseding the timeout); otherwise the batch stays
with its original timer. -/
theorem c8_batch_flush_triggers (o : LLM.ResolvedOptions) (st : LLM.LLMState)
    (sid : String) (op : LLM.AppendOp)
    (hen : LLM.appendEnabled o op = true) :
    (∀ b, AudioStream.lookupA st.batchMap sid = some b →
      (LLM.applyAppend o st sid op).armedTimers = st.armedTimers ∧
      (LLM.itemCount (LLM.appendItem b op) < o.maxBatchSize →
        AudioStream.lookupA (LLM.applyAppend o st sid op).batchMap sid =
          some (LLM.appendItem b op) ∧
        (LLM.appendItem b op).timer = b.timer ∧
        (LLM.applyAppend o st sid op).clearedTimers = st.clearedTimers) ∧
      (LLM.itemCount (LLM.appendItem b op) ≥ o.maxBatchSize →
        AudioStream.lookupA (LLM.applyAppend o st sid op).batchMap sid = none ∧
        (LLM.applyAppend o st sid op).clearedTimers =
          st.clearedTimers ++ [b.timer])) ∧
    (AudioStream.lookupA st.batchMap sid = none →
      (LLM.applyAppend o st sid op).armedTimers =
        st.armedTimers ++ [st.nextTimer] ∧
      (LLM.itemCount
          (LLM.appendItem { audio := [], transcripts := [], timer := st.nextTimer } op)
            < o.maxBatchSize →
        AudioStream.lookupA (LLM.applyAppend o st sid op).batchMap sid =
          some (LLM.appendItem
            { audio := [], transcripts := [], timer := st.nextTimer } op)) ∧
      (LLM.itemCount
          (LLM.appendItem { audio := [], transcripts := [], timer := st.nextTimer } op)
            ≥ o.maxBatchSize →
        AudioStream.lookupA (LLM.applyAppend o st sid op).batchMap sid = none ∧
        (LLM.applyAppend o st sid op).clearedTimers =
          st.clearedTimers ++ [st.nextTimer])) := by
  rw [LLM.applyAppend_eq o st sid op hen]
  constructor
  · intro b hb
    rw [LLM.getOrCreateBatch_of_some hb]
    rw [hb]
    simp only [Option.getD_some]
    have hlk : AudioStream.lookupA
        (setA st.batchMap sid (LLM.appendItem b op)) sid =
        some (LLM.appendItem b op) := AudioStream.lookupA_setA_self _ _ _
    unfold LLM.checkBatchSize
    rw [hlk]
    dsimp only
    by_cases hcnt : (LLM.appendItem b op).audio.length +
        (LLM.appendItem b op).transcripts.length ≥ o.maxBatchSize
    · rw [if_pos hcnt]
      have hpb := LLM.processBatch_of_some
        (show AudioStream.lookupA
            (LLM.LLMState.mk (setA st.batchMap sid (LLM.appendItem b op))
              st.nextTimer st.armedTimers st.clearedTimers st.requests).batchMap
            sid = some (LLM.appendItem b op) from hlk)
      have hpa := LLM.processBatch_armed
        (LLM.LLMState.mk (setA st.batchMap sid (LLM.appendItem b op))
          st.nextTimer st.armedTimers st.clearedTimers st.requests) sid
      have htimer : (LLM.appendItem b op).timer = b.timer := by
        cases op <;> rfl
      refine ⟨hpa, ?_, ?_⟩
      · intro hlt
        exact absurd hcnt (by simp [LLM.itemCount] at hlt ⊢; omega)
      · intro _
        rw [htimer] at hpb
        exact ⟨hpb.2, hpb.1⟩
    · rw [if_neg hcnt]
      refine ⟨rfl, ?_, ?_⟩
      · intro _
        refine ⟨hlk, by cases op <;> rfl, rfl⟩
      · intro hge
        exact absurd hge (by simp [LLM.itemCount] at hcnt ⊢; omega)
  · intro hb
    rw [LLM.getOrCreateBatch_of_none hb]
    dsimp only
    rw [AudioStream.lookupA_setA_self]
    simp only [Option.getD_some]
    have hlk : AudioStream.lookupA
        (setA (setA st.batchMap sid
          { audio := [], transcripts := [], timer := st.nextTimer }) sid
          (LLM.appendItem
            { audio := [], transcripts := [], timer := st.nextTimer } op)) sid =
        some (LLM.appendItem
          { audio := [], transcripts := [], timer := st.nextTimer } op) :=
      AudioStream.lookupA_setA_self _ _ _
    unfold LLM.checkBatchSize
    rw [hlk]
    dsimp only
    by_cases hcnt : (LLM.appendItem
          { audio := [], transcripts := [], timer := st.nextTimer } op).audio.length +
        (LLM.appendItem
          { audio := [], transcripts := [], timer := st.nextTimer } op).transcripts.length ≥
        o.maxBatchSize
    · rw [if_pos hcnt]
      have hpb := LLM.processBatch_of_some
        (show AudioStream.lookupA
            (LLM.LLMState.mk
              (setA (setA st.batchMap sid (LLM.Batch.mk [] [] st.nextTimer)) sid
                (LLM.appendItem (LLM.Batch.mk [] [] st.nextTimer) op))
              (st.nextTimer + 1) (st.armedTimers ++ [st.nextTimer])
              st.clearedTimers st.requests).batchMap
            sid = some (LLM.appendItem (LLM.Batch.mk [] [] st.nextTimer) op)
          from hlk)
      have htimer : (LLM.appendItem
          { audio := [], transcripts := [], timer := st.nextTimer } op).timer =
          st.nextTimer := by
        cases op <;> rfl
      refine ⟨?_, ?_, ?_⟩
      · rw [LLM.processBatch_armed]
      · intro hlt
        exact absurd hcnt (by simp [LLM.itemCount] at hlt ⊢; omega)
      · intro _
        rw [htimer] at hpb
        exact ⟨hpb.2, hpb.1⟩
    · rw [if_neg hcnt]
      refine ⟨rfl, ?_, ?_⟩
      · intro _
        exact hlk
      · intro hge
        exact absurd hge (by simp [LLM.itemCount] at hcnt ⊢; omega)

/-- Witness for the batch flush triggers: with `maxBatchSize = 2` and a
batch already holding one transcript, appending a second transcript arms
no new timer, flushes the batch immediately and clears its creation
timer. -/
theorem c8_batch_flush_triggers_witness :
    LLM.appendEnabled
      (LLM.resolveOptions (LLM.LLMOptions.mk none (some 2) none none))
      (LLM.AppendOp.result (LLM.TranscriptionResult.mk "yo" none none)) = true ∧
    (LLM.applyAppend
      (LLM.resolveOptions (LLM.LLMOptions.mk none (some 2) none none))
      (LLM.LLMState.mk
        [("s", LLM.Batch.mk [] [LLM.TranscriptionResult.mk "hi" none none] 0)]
        1 [0] [] [])
      "s"
      (LLM.AppendOp.result (LLM.TranscriptionResult.mk "yo" none none))).armedTimers
      = [0] ∧
    AudioStream.lookupA
      (LLM.applyAppend
        (LLM.resolveOptions (LLM.LLMOptions.mk none (some 2) none none))
        (LLM.LLMState.mk
          [("s", LLM.Batch.mk [] [LLM.TranscriptionResult.mk "hi" none none] 0)]
          1 [0] [] [])
        "s"
        (LLM.AppendOp.result (LLM.TranscriptionResult.mk "yo" none none))).batchMap
      "s" = none ∧
    (LLM.applyAppend
      (LLM.resolveOptions (LLM.LLMOptions.mk none (some 2) none none))
      (LLM.LLMState.mk
        [("s", LLM.Batch.mk [] [LLM.TranscriptionResult.mk "hi" none none] 0)]
        1 [0] [] [])
      "s"
      (LLM.AppendOp.result (LLM.TranscriptionResult.mk "yo" none none))).clearedTimers
      = [0] := by
  have h := c8_batch_flush_triggers
    (LLM.resolveOptions (LLM.LLMOptions.mk none (some 2) none none))
    (LLM.LLMState.mk
      [("s", LLM.Batch.mk [] [LLM.TranscriptionResult.mk "hi" none none] 0)]
      1 [0] [] [])
    "s"
    (LLM.AppendOp.result (LLM.TranscriptionResult.mk "yo" none none)) rfl
  have h1 := h.1 (LLM.Batch.mk [] [LLM.TranscriptionResult.mk "hi" none none] 0) rfl
  have h2 := h1.2.2 (by decide)
  exact ⟨rfl, h1.1, h2.1, h2.2⟩

/-- C10 (implicit): flushing a non-empty batch emits exactly one request;
when transcripts were accumulated its `transcript` field is the
transcript texts with empty texts filtered out and joined by single
spaces, and `transcriptionResults` is the full ordered result list; the
`audio` field is present iff audio chunks were accumulated, and then is
their concatenation in append order. -/
theorem c10_flushed_request_construction (st : LLM.LLMState) (sid : String)
    (batch : LLM.Batch)
    (hb : AudioStream.lookupA st.batchMap sid = some batch)
    (hne : ¬(batch.audio.length = 0 ∧ batch.transcripts.length = 0)) :
    (LLM.processBatch st sid).requests =
      st.requests ++ [LLM.buildRequest sid batch] ∧
    (LLM.buildRequest sid batch).sessionId = sid ∧
    (batch.transcripts.length > 0 →
      (LLM.buildRequest sid batch).transcript =
        some (String.intercalate " "
          ((batch.transcripts.map LLM.TranscriptionResult.transcript).filter
            (fun t => t ≠ ""))) ∧
      (LLM.buildRequest sid batch).transcriptionResults =
        some batch.transcripts) ∧
    ((LLM.buildRequest sid batch).audio =
      if batch.audio.length > 0 then some batch.audio.flatten else none) := by
  refine ⟨?_, ?_, ?_, ?_⟩
  · unfold LLM.processBatch
    rw [hb]
    dsimp only
    rw [if_neg hne]
  · unfold LLM.buildRequest
    by_cases ha : batch.audio.length > 0 <;>
      by_cases ht : batch.transcripts.length > 0 <;>
      simp [ha, ht]
  · intro ht
    unfold LLM.buildRequest
    by_cases ha : batch.audio.length > 0 <;> simp [ha, ht]
  · unfold LLM.buildRequest
    by_cases ha : batch.audio.length > 0 <;>
      by_cases ht : batch.transcripts.length > 0 <;>
      simp [ha, ht]

/-- Witness for the flushed-request construction on a batch holding two
audio chunks and three results with one empty transcript. -/
theorem c10_flushed_request_construction_witness :
    (LLM.processBatch
      (LLM.LLMState.mk
        [("s", LLM.Batch.mk [[1, 2], [3]]
          [LLM.TranscriptionResult.mk "a" none none,
           LLM.TranscriptionResult.mk "" none none,
           LLM.TranscriptionResult.mk "b" none none] 7)]
        8 [7] [] [])
      "s").requests =
      [LLM.buildRequest "s"
        (LLM.Batch.mk [[1, 2], [3]]
          [LLM.TranscriptionResult.mk "a" none none,
           LLM.TranscriptionResult.mk "" none none,
           LLM.TranscriptionResult.mk "b" none none] 7)] ∧
    (LLM.buildRequest "s"
      (LLM.Batch.mk [[1, 2], [3]]
        [LLM.TranscriptionResult.mk "a" none none,
         LLM.TranscriptionResult.mk "" none none,
         LLM.TranscriptionResult.mk "b" none none] 7)).transcript =
      some "a b" ∧
    (LLM.buildRequest "s"
      (LLM.Batch.mk [[1, 2], [3]]
        [LLM.TranscriptionResult.mk "a" none none,
         LLM.TranscriptionResult.mk "" none none,
         LLM.TranscriptionResult.mk "b" none none] 7)).audio =
      some [1, 2, 3] := by
  have h := c10_flushed_request_construction
    (LLM.LLMState.mk
      [("s", LLM.Batch.mk [[1, 2], [3]]
        [LLM.TranscriptionResult.mk "a" none none,
         LLM.TranscriptionResult.mk "" none none,
         LLM.TranscriptionResult.mk "b" none none] 7)]
      8 [7] [] [])
    "s"
    (LLM.Batch.mk [[1, 2], [3]]
      [LLM.TranscriptionResult.mk "a" none none,
       LLM.TranscriptionResult.mk "" none none,
       LLM.TranscriptionResult.mk "b" none none] 7)
    rfl (by decide)
  refine ⟨h.1, ?_, ?_⟩
  · rw [(h.2.2.1 (by decide)).1]
    rfl
  · rw [h.2.2.2]
    rfl

